import Mathlib

/-!
Verification development for the sensorlab-observer archive loaders
(`observer/m_node/m_experiment_setup.py` and `observer/m_node/m_node_setup.py`).

The Python code is shallowly embedded: paths are strings, the filesystem is an
explicit list of existing regular-file paths, a tar archive is its member list,
and a parsed YAML manifest is a tagged tree.  The two `Loader.__init__`
pipelines are translated statement by statement into pure functions that return
the loader's (possibly partial) state together with an optional error, where an
error corresponds to the exception raised by the constructor.
-/

set_option maxRecDepth 20000

deriving instance DecidableEq for Except

namespace Sensorlab

/-! ## Character-list string helpers

All string manipulation is done on `List Char` (the `data` field of `String`)
so that every definition reduces well in the kernel. -/

/-- Longest common character-wise leading run of two character lists.
Models `os.path.commonprefix` restricted to two inputs: that Python function
computes the longest common string (not path-component) leading run. -/
def lcpChars : List Char → List Char → List Char
  | a :: as, b :: bs => if a = b then a :: lcpChars as bs else []
  | _, _ => []

/-- Models `os.path.commonprefix([a, b])`. -/
def commonPre (a b : String) : String := ⟨lcpChars a.data b.data⟩

/-- Split a character list on `'/'` (like Python `str.split('/')`);
`cur` is the reversed current component accumulator. -/
def splitSlashAux : List Char → List Char → List (List Char)
  | cur, [] => [cur.reverse]
  | cur, c :: rest => if c = '/' then cur.reverse :: splitSlashAux [] rest
                      else splitSlashAux (c :: cur) rest

/-- Split a string on `'/'`. -/
def splitSlash (s : String) : List String := (splitSlashAux [] s.data).map String.mk

/-- One step of path normalization: empty and `.` components are dropped,
`..` pops the stack (staying at the root when the stack is empty), any other
component is pushed. -/
def normFold (stack : List (List Char)) (comp : List Char) : List (List Char) :=
  if comp = [] ∨ comp = ['.'] then stack
  else if comp = ['.', '.'] then stack.tail
  else comp :: stack

/-- Join path components with `'/'`. -/
def joinSlash : List (List Char) → List Char
  | [] => []
  | [x] => x
  | x :: xs => x ++ '/' :: joinSlash xs

/-- Models `os.path.abspath` on the absolute POSIX paths the loaders use
(the workspace comes from `tempfile.mkdtemp()` and is absolute, so every
path reaching `abspath` in the translated code is already absolute):
the path is normalized by resolving `.` and `..` components. -/
def abspath (p : String) : String :=
  ⟨'/' :: joinSlash (((splitSlashAux [] p.data).foldl normFold []).reverse)⟩

/-- Models `os.path.join(a, b)` for POSIX paths and two arguments. -/
def pathJoin (a b : String) : String :=
  if b.data.head? = some '/' then b
  else if a.data.isEmpty then b
  else if a.data.getLast? = some '/' then ⟨a.data ++ b.data⟩
  else ⟨a.data ++ '/' :: b.data⟩

/-- Boolean substring occurrence test: `occursB pat s` holds when `pat`
appears as a contiguous run inside `s`. -/
def occursB (pat : List Char) : List Char → Bool
  | [] => pat.isPrefixOf []
  | c :: s => pat.isPrefixOf (c :: s) || occursB pat s

/-- Occurrence as a proposition: `pat` appears contiguously inside `s`. -/
def Occurs (pat s : List Char) : Prop := ∃ a b, s = a ++ pat ++ b

/-- Fuel-driven worker for `replaceList`; the fuel (an upper bound on the
input length, consumed one unit per character step) only makes the recursion
structural, it never runs out on the intended calls. -/
def replaceListAux (pat repl : List Char) : Nat → List Char → List Char
  | _, [] => []
  | 0, s => s
  | fuel + 1, c :: s =>
    if pat.isPrefixOf (c :: s) ∧ pat ≠ [] then
      repl ++ replaceListAux pat repl fuel (s.drop (pat.length - 1))
    else
      c :: replaceListAux pat repl fuel s

/-- Models Python `str.replace(pat, repl)` on character lists for a non-empty
`pat`: all non-overlapping occurrences are replaced left to right, and the
replacement text is not rescanned. -/
def replaceList (pat repl s : List Char) : List Char :=
  replaceListAux pat repl s.length s

/-- Models Python `s.replace(pat, repl)`. -/
def strReplace (s pat repl : String) : String := ⟨replaceList pat.data repl.data s.data⟩

/-! ## Tar archives and safe extraction -/

/-- A tar archive member; only its name is relevant to the loaders. -/
structure TarMember where
  name : String
deriving DecidableEq

/-- Direct translation of the `is_within_directory` helper defined inside both
`Loader.__init__` bodies: both paths are passed through `os.path.abspath` and
the directory must equal the `os.path.commonprefix` of the pair.  Note that
this is a character-wise test, not a path-component test. -/
def is_within_directory (directory target : String) : Bool :=
  let abs_directory := abspath directory
  let abs_target := abspath target
  commonPre abs_directory abs_target == abs_directory

/-- Models `tarfile.TarFile.extractall(path)`: every member is written to
`os.path.join(path, member.name)`.  Returns the list of destination paths. -/
def extractall (tar : List TarMember) (path : String) : List String :=
  tar.map (fun m => pathJoin path m.name)

/-- Direct translation of the `safe_extract` helper defined inside both
`Loader.__init__` bodies: every member's destination is checked with
`is_within_directory` and the whole operation fails before anything is
written if any member fails the check; only then is `extractall` invoked. -/
def safe_extract (tar : List TarMember) (path : String) : Except String (List String) :=
  if tar.all (fun m => is_within_directory path (pathJoin path m.name)) then
    .ok (extractall tar path)
  else
    .error "Attempted Path Traversal in Tar File"

/-- The files written by a `safe_extract` outcome: none when it errored. -/
def writtenFiles : Except String (List String) → List String
  | .ok l => l
  | .error _ => []

/-- Spec-side containment predicate (from the spec's words, for comparison with
`is_within_directory`): after canonicalization the target must equal the
directory or live strictly below it, i.e. extend it past a path separator. -/
def isWithinSpec (directory target : String) : Bool :=
  let d := abspath directory
  let t := abspath target
  d == t || (d.data ++ ['/']).isPrefixOf t.data

/-! ## YAML documents -/

/-- A parsed YAML document as the loaders see it: mappings with string keys,
sequences, string/number/boolean scalars, and null. -/
inductive Yaml where
  | str (s : String)
  | nat (n : Nat)
  | bool (b : Bool)
  | null
  | seq (items : List Yaml)
  | map (entries : List (String × Yaml))

/-- First-match association lookup (a parsed YAML mapping has unique keys,
so this is Python `dict` lookup). -/
def lookupStr : List (String × Yaml) → String → Option Yaml
  | [], _ => none
  | (k, v) :: rest, key => if k == key then some v else lookupStr rest key

/-- Models the Python subscript `node[element]` as used inside the manifest
walk's `try`/`except`: it produces a value only when the node is a mapping
containing the key; every other case (missing key, non-mapping node) raises
and is caught by the bare `except`. -/
def Yaml.get : Yaml → String → Option Yaml
  | .map es, k => lookupStr es k
  | _, _ => none

/-- Python truthiness of a YAML value (`if self.manifest[...]:`). -/
def Yaml.truthy : Yaml → Bool
  | .null => false
  | .str s => !s.data.isEmpty
  | .nat n => n != 0
  | .bool b => b
  | .seq l => !l.isEmpty
  | .map l => !l.isEmpty

/-- The sequence items of a YAML value, when it is a sequence. -/
def seqItems : Yaml → Option (List Yaml)
  | .seq l => some l
  | _ => none

/-- Walk one slash-split schema path through a document; returns the first
segment at which the lookup fails, or `none` when the whole path resolves.
Translation of the inner `for element in path_elements` loop. -/
def walkSegs : Yaml → List String → Option String
  | _, [] => none
  | y, e :: rest =>
    match y.get e with
    | some v => walkSegs v rest
    | none => some e

/-- Walk a list of mandatory slash-delimited schema paths in order, stopping at
the first failing path; returns the failing segment together with the full
path it was resolving.  Translation of the outer `for path in
MANIFEST_MANDATORY_MEMBERS` loop. -/
def checkPaths (y : Yaml) : List String → Option (String × String)
  | [] => none
  | p :: rest =>
    match walkSegs y (splitSlash p) with
    | some e => some (e, p)
    | none => checkPaths y rest

/-! ## Python dict assignment -/

/-- Python `d[k] = v` on an association list with unique keys: the first
binding of `k` is updated in place, otherwise the binding is appended. -/
def dictInsert : List (String × String) → String → String → List (String × String)
  | [], k, v => [(k, v)]
  | (k', v') :: rest, k, v =>
    if k' == k then (k, v) :: rest else (k', v') :: dictInsert rest k v

/-- Python `d[k]` / `d.get(k)` on an association list. -/
def dictLookup : List (String × String) → String → Option String
  | [], _ => none
  | (k', v') :: rest, k => if k' == k then some v' else dictLookup rest k

/-- Number of bindings of a key in an association list. -/
def countKey (m : List (String × String)) (k : String) : Nat :=
  (m.filter (fun kv => kv.1 == k)).length

/-! ## Filesystem and workspace release -/

/-- A filesystem snapshot: the existing directories and regular files. -/
structure FS where
  dirs : List String
  files : List String
deriving DecidableEq

/-- `p` is `root` itself or lies below it (component-wise). -/
def pathUnder (root p : String) : Bool :=
  p == root || (root.data ++ ['/']).isPrefixOf p.data

/-- Error raised by `shutil.rmtree` on a missing path. -/
inductive RmErr where
  | notFound
deriving DecidableEq

/-- Models `shutil.rmtree(dir)` with default arguments: recursively removes the
directory tree, raising `FileNotFoundError` when the directory does not
exist (no `ignore_errors`, no `onerror` handler in the source). -/
def rmtree (fs : FS) (dir : String) : Except RmErr FS :=
  if fs.dirs.contains dir then
    .ok ⟨fs.dirs.filter (fun d => !pathUnder dir d),
         fs.files.filter (fun f => !pathUnder dir f)⟩
  else
    .error .notFound

/-- Direct translation of `Loader.clean` (identical in both modules):
`shutil.rmtree(self.temp_directory)` with no error handling. -/
def clean (fs : FS) (temp_directory : String) : Except RmErr FS :=
  rmtree fs temp_directory

/-! ## The experiment loader (`m_experiment_setup.py`) -/

namespace ExperimentSetup

def FIRMWARES_SUBDIR : String := "firmwares"

def EXPERIMENT_MANIFEST : String := "manifest.yml"

def CONFIGURATION_MANDATORY_MEMBERS : List String :=
  [FIRMWARES_SUBDIR, EXPERIMENT_MANIFEST]

def MANIFEST_MANDATORY_MEMBERS : List String :=
  ["firmwares", "schedule"]

/-- Modelled from the spec: the error classes live in the missing `m_common`
module; each constructor records exactly the data the `raise` site in
`m_experiment_setup.py` passes into the message format, so two failures are
distinguishable in the model iff the raised messages can differ. -/
inductive ExpErr where
  | missingMembers (missing : List String) (contents : List String)
  | pathTraversal
  | manifestMissing (element : String) (path : String)
  | missingFirmwareFile (file : String)
  | badEntry
deriving DecidableEq

/-- One entry of the manifest's `firmwares` table. -/
structure FirmEntry where
  id : String
  file : String
deriving DecidableEq

/-- Reads `firmware['id']` and `firmware['file']` from one table item. -/
def entryOf (y : Yaml) : Option FirmEntry :=
  match y.get "id", y.get "file" with
  | some (.str i), some (.str f) => some ⟨i, f⟩
  | _, _ => none

/-- Reads the whole `firmwares` table; anything other than a sequence of
well-formed entries is a malformed table (an uncaught KeyError/TypeError
in the Python loop, collapsed to `badEntry` in the model). -/
def entriesOf : Yaml → Option (List FirmEntry)
  | .seq items => items.mapM entryOf
  | _ => none

/-- The parsed firmware table of a manifest (empty for malformed tables). -/
def expFirmEntries (manifest : Yaml) : List FirmEntry :=
  match manifest.get "firmwares" with
  | some y => (entriesOf y).getD []
  | none => []

/-- Direct translation of the firmware registration loop (lines 151-157):
for each entry the resolved path is first stored into `self.firmwares[fid]`
and only then checked with `os.path.isfile`; the first missing file raises
with the entry's declared file name, leaving the partial map in place. -/
def registerFirmwares (fs : List String) (firmwares_dir : String) :
    List FirmEntry → List (String × String) → List (String × String) × Option ExpErr
  | [], acc => (acc, none)
  | e :: rest, acc =>
    let p := pathJoin firmwares_dir e.file
    let acc' := dictInsert acc e.id p
    if fs.contains p then registerFirmwares fs firmwares_dir rest acc'
    else (acc', some (.missingFirmwareFile e.file))

/-- The experiment loader's state: extracted member destinations, the
`self.firmwares` map, the registered schedule, and the raised error if any. -/
structure ExpResult where
  extracted : List String
  firmwares : List (String × String)
  schedule : Option Yaml
  error : Option ExpErr

def expInit : ExpResult := ⟨[], [], none, none⟩

/-- Translation of `m_experiment_setup.Loader.__init__` after the archive has
been materialized and the manifest parsed by the external YAML parser:
member-list validation, safe extraction, manifest schema walk,
firmware registration, schedule registration — in source order, stopping at
the first raised exception. `fs` is the set of regular files on disk
(after extraction), `manifest` the parser's output. -/
def loadExperiment (fs : List String) (temp_directory : String)
    (archive : List TarMember) (manifest : Yaml) : ExpResult :=
  let archive_contents := archive.map TarMember.name
  if CONFIGURATION_MANDATORY_MEMBERS.any (fun elt => !archive_contents.contains elt) then
    { expInit with
        error := some (.missingMembers
          (CONFIGURATION_MANDATORY_MEMBERS.filter (fun elt => !archive_contents.contains elt))
          archive_contents) }
  else
    match safe_extract archive temp_directory with
    | .error _ => { expInit with error := some .pathTraversal }
    | .ok extracted =>
      match checkPaths manifest MANIFEST_MANDATORY_MEMBERS with
      | some ep =>
        { expInit with extracted := extracted, error := some (.manifestMissing ep.1 ep.2) }
      | none =>
        match manifest.get "firmwares" with
        | none => { expInit with extracted := extracted, error := some .badEntry }
        | some fwY =>
          match entriesOf fwY with
          | none => { expInit with extracted := extracted, error := some .badEntry }
          | some entries =>
            let firmwares_dir := pathJoin temp_directory FIRMWARES_SUBDIR
            let res := registerFirmwares fs firmwares_dir entries []
            { extracted := extracted, firmwares := res.1,
              schedule := if res.2 = none then manifest.get "schedule" else none,
              error := res.2 }

end ExperimentSetup

/-! ## The node-profile loader (`m_node_setup.py`) -/

namespace NodeSetup

def CONTROLLER_SUBDIR : String := "controller"

def CONTROLLER_EXECUTABLES_SUBDIR : String := "controller/executables"

def CONTROLLER_CONFIGURATION_FILES_SUBDIR : String := "controller/configuration_files"

def SERIAL_SUBDIR : String := "serial"

def PROFILE_MANIFEST : String := "manifest.yml"

def PROFILE_MANDATORY_MEMBERS : List String :=
  [CONTROLLER_SUBDIR, CONTROLLER_EXECUTABLES_SUBDIR,
   CONTROLLER_CONFIGURATION_FILES_SUBDIR, SERIAL_SUBDIR, PROFILE_MANIFEST]

def MANIFEST_MANDATORY_MEMBERS : List String :=
  ["hardware", "controller", "controller/commands",
   "controller/commands/load", "controller/commands/start",
   "controller/commands/stop", "controller/commands/reset",
   "controller/configuration_files", "serial",
   "serial/port", "serial/baudrate", "serial/parity", "serial/stopbits",
   "serial/bytesize", "serial/rtscts", "serial/xonxoff", "serial/timeout",
   "serial/module"]

/-- Modelled from the spec: the error classes live in the missing `m_common`
module; each constructor records exactly the data the `raise` site in
`m_node_setup.py` passes into the message format (in particular the manifest
walk's `NodeSetupException(ERROR_MISSING_ARGUMENT_IN_MANIFEST.format(element))`
is given only the failing segment).  `valueError`, `runtimeError`, `typeError`
and `keyError` stand for the corresponding uncaught Python exceptions. -/
inductive NodeErr where
  | missingMembers (missing : List String)
  | pathTraversal
  | manifestMissing (element : String)
  | keyError (key : String)
  | valueError
  | runtimeError
  | typeError
deriving DecidableEq

/-- The executable placeholder token `<!id>` built by
`'<!{0}>'.format(eid)`. -/
def execToken (eid : String) : String := ⟨'<' :: '!' :: (eid.data ++ ['>'])⟩

/-- The configuration-file placeholder token `<#id>` built by
`'<#{0}>'.format(cid)`. -/
def cfgToken (cid : String) : String := ⟨'<' :: '#' :: (cid.data ++ ['>'])⟩

/-- Python tuple-unpacking of a string into two variables
(`cmd_name, cmd = k`): it succeeds exactly when the string has two
characters, else a `ValueError` is raised. -/
def unpackKey (k : String) : Option (String × String) :=
  match k.data with
  | [a, b] => some (⟨[a]⟩, ⟨[b]⟩)
  | _ => none

def keysOf (cmds : List (String × Yaml)) : List String := cmds.map Prod.fst

/-- Python `d[k] = v` on the commands mapping. -/
def setCmd : List (String × Yaml) → String → Yaml → List (String × Yaml)
  | [], k, v => [(k, v)]
  | (k', v') :: rest, k, v =>
    if k' == k then (k, v) :: rest else (k', v') :: setCmd rest k v

/-- Direct translation of the buggy loop at lines 190-192:
`for cmd_name, cmd in self.manifest['controller']['commands']:` iterates the
dict's KEYS (`.items()` is missing), so each key string is tuple-unpacked into
`(cmd_name, cmd)` — a `ValueError` unless the key has exactly two characters;
when it does, the assignment targets the one-character key `cmd_name`, and
assigning a key that is not already present while iterating raises a
`RuntimeError` (dictionary changed size during iteration). -/
def execUnpackLoop (tok pathv : String) :
    List String → List (String × Yaml) → Except NodeErr (List (String × Yaml))
  | [], cmds => .ok cmds
  | k :: rest, cmds =>
    match unpackKey k with
    | none => .error .valueError
    | some nc =>
      if (keysOf cmds).contains nc.1 then
        execUnpackLoop tok pathv rest (setCmd cmds nc.1 (.str (strReplace nc.2 tok pathv)))
      else .error .runtimeError

/-- Translation of the executable placeholder pass (lines 185-192), one
iteration per `executables` table entry. -/
def execPass (temp_directory : String) :
    List Yaml → List (String × Yaml) → Except NodeErr (List (String × Yaml))
  | [], cmds => .ok cmds
  | ey :: rest, cmds =>
    match ey.get "id", ey.get "file" with
    | some (.str eid), some (.str efile) =>
      let executables_dir := pathJoin temp_directory CONTROLLER_EXECUTABLES_SUBDIR
      match execUnpackLoop (execToken eid) (pathJoin executables_dir efile)
              (keysOf cmds) cmds with
      | .ok cmds' => execPass temp_directory rest cmds'
      | .error e => .error e
    | _, _ => .error (.keyError "id")

/-- Translation of the inner `for cmd_name, cmd in commands.items():` loop of
the configuration-file pass (lines 200-202): every command value is rewritten
with one `str.replace`; a non-string command value raises (AttributeError,
collapsed to `typeError`). -/
def replaceAllCommands (tok pathv : String) :
    List (String × Yaml) → Except NodeErr (List (String × Yaml))
  | [] => .ok []
  | (k, Yaml.str c) :: rest =>
    match replaceAllCommands tok pathv rest with
    | .ok rest' => .ok ((k, Yaml.str (strReplace c tok pathv)) :: rest')
    | .error e => .error e
  | _ :: _ => .error .typeError

/-- Translation of the configuration-file placeholder pass (lines 195-202),
one iteration per `configuration_files` table entry. -/
def configPass (temp_directory : String) :
    List Yaml → List (String × Yaml) → Except NodeErr (List (String × Yaml))
  | [], cmds => .ok cmds
  | cy :: rest, cmds =>
    match cy.get "id", cy.get "file" with
    | some (.str cid), some (.str cfile) =>
      let configuration_files_dir :=
        pathJoin temp_directory CONTROLLER_CONFIGURATION_FILES_SUBDIR
      match replaceAllCommands (cfgToken cid)
              (pathJoin configuration_files_dir cfile) cmds with
      | .ok cmds' => configPass temp_directory rest cmds'
      | .error e => .error e
    | _, _ => .error (.keyError "id")

/-- The node loader's outcome: extracted member destinations, the resolved
commands mapping, the rewritten `serial/module` path, and the raised error if
any (when `__init__` raises, no loader object is produced, so the non-error
fields are cleared in the error case). -/
structure NodeResult where
  extracted : List String
  commands : List (String × Yaml)
  serialModule : Option String
  error : Option NodeErr

def nodeInit : NodeResult := ⟨[], [], none, none⟩

/-- Translation of `m_node_setup.Loader.__init__` after the archive has been
materialized and the manifest parsed: member-list validation, safe
extraction, manifest schema walk, executable placeholder pass (the buggy
keys-iteration), configuration-file placeholder pass, serial module path
rewriting — in source order, stopping at the first raised exception. -/
def loadNode (temp_directory : String) (archive : List TarMember)
    (manifest : Yaml) : NodeResult :=
  let archive_contents := archive.map TarMember.name
  if PROFILE_MANDATORY_MEMBERS.any (fun elt => !archive_contents.contains elt) then
    { nodeInit with
        error := some (.missingMembers
          (PROFILE_MANDATORY_MEMBERS.filter (fun elt => !archive_contents.contains elt))) }
  else
    match safe_extract archive temp_directory with
    | .error _ => { nodeInit with error := some .pathTraversal }
    | .ok extracted =>
      match checkPaths manifest MANIFEST_MANDATORY_MEMBERS with
      | some ep =>
        { nodeInit with extracted := extracted, error := some (.manifestMissing ep.1) }
      | none =>
        match manifest.get "controller" with
        | none => { nodeInit with extracted := extracted, error := some (.keyError "controller") }
        | some controller =>
          match controller.get "commands" with
          | some (.map cmds) =>
            (match controller.get "executables" with
             | none => { nodeInit with extracted := extracted, error := some (.keyError "executables") }
             | some execsY =>
               let afterExec : Except NodeErr (List (String × Yaml)) :=
                 if execsY.truthy then
                   match seqItems execsY with
                   | some items => execPass temp_directory items cmds
                   | none => .error .typeError
                 else .ok cmds
               match afterExec with
               | .error e => { nodeInit with extracted := extracted, error := some e }
               | .ok cmds1 =>
                 match controller.get "configuration_files" with
                 | none => { nodeInit with extracted := extracted, error := some (.keyError "configuration_files") }
                 | some cfgsY =>
                   let afterCfg : Except NodeErr (List (String × Yaml)) :=
                     if cfgsY.truthy then
                       match seqItems cfgsY with
                       | some items => configPass temp_directory items cmds1
                       | none => .error .typeError
                     else .ok cmds1
                   match afterCfg with
                   | .error e => { nodeInit with extracted := extracted, error := some e }
                   | .ok cmds2 =>
                     match manifest.get "serial" with
                     | none => { nodeInit with extracted := extracted, error := some (.keyError "serial") }
                     | some serialY =>
                       match serialY.get "module" with
                       | some (.str m) =>
                         { extracted := extracted, commands := cmds2,
                           serialModule :=
                             some (pathJoin (pathJoin temp_directory SERIAL_SUBDIR) m),
                           error := none }
                       | _ => { nodeInit with extracted := extracted, error := some .typeError })
          | _ => { nodeInit with extracted := extracted, error := some .typeError }

/-- The string value of one command in the loader's outcome. -/
def NodeResult.command (r : NodeResult) (name : String) : Option String :=
  match lookupStr r.commands name with
  | some (Yaml.str s) => some s
  | _ => none

/-- The string value of one command after the configuration-file pass
(`none` when the pass raised or the command is not a string). -/
def configPassCmd (temp_directory : String) (entries : List Yaml)
    (cmds : List (String × Yaml)) (k : String) : Option String :=
  match configPass temp_directory entries cmds with
  | .ok cmds' =>
    match lookupStr cmds' k with
    | some (Yaml.str s) => some s
    | _ => none
  | .error _ => none

/-- Whether an optionally-produced command string still contains a token. -/
def containsToken (tok : String) : Option String → Bool
  | some s => occursB tok.data s.data
  | none => false

end NodeSetup

/-- A placeholder token `<` marker `id` `>` as a string; `NodeSetup.execToken`
and `NodeSetup.cfgToken` are its instances at markers `'!'` and `'#'`. -/
def mkToken (mrk : Char) (id : String) : String :=
  ⟨'<' :: mrk :: (id.data ++ ['>'])⟩

/-- The effect of one placeholder substitution on one YAML value: string
values are rewritten with `str.replace`, anything else is untouched (the
translated loop only ever rewrites string command values). -/
def yReplace (tok pathv : String) : Yaml → Yaml
  | .str c => .str (strReplace c tok pathv)
  | y => y

/-- The accumulated `self.firmwares` insertions of a run of the registration
loop (one `self.firmwares[fid] = os.path.join(...)` per entry). -/
def regFold (dir : String) (entries : List ExperimentSetup.FirmEntry)
    (acc : List (String × String)) : List (String × String) :=
  entries.foldl (fun a e => dictInsert a e.id (pathJoin dir e.file)) acc

/-! ## Concrete sample inputs used by the closed theorems below -/

/-- A node-profile archive holding exactly the five mandatory members. -/
def sampleNodeArchive : List TarMember :=
  [⟨"controller"⟩, ⟨"controller/executables"⟩, ⟨"controller/configuration_files"⟩,
   ⟨"serial"⟩, ⟨"manifest.yml"⟩]

/-- An experiment archive holding exactly the two mandatory members. -/
def sampleExpArchive : List TarMember :=
  [⟨"firmwares"⟩, ⟨"manifest.yml"⟩]

/-- A complete `serial` section. -/
def sampleSerial : Yaml :=
  .map [("port", .str "/dev/ttyUSB0"), ("baudrate", .nat 115200),
        ("parity", .str "N"), ("stopbits", .nat 1), ("bytesize", .nat 8),
        ("rtscts", .bool false), ("xonxoff", .bool false), ("timeout", .nat 1),
        ("module", .str "decoder.py")]

/-- A complete `controller/commands` section whose `start` command holds an
executable placeholder. -/
def sampleCmds : List (String × Yaml) :=
  [("load", .str "loadcmd"), ("start", .str "<!cmd1> --mode=fast"),
   ("stop", .str "stopcmd"), ("reset", .str "resetcmd")]

/-- A node manifest whose `serial` mapping lacks `baudrate` (all earlier
mandatory paths resolve). -/
def sampleManifestNoBaud : Yaml :=
  .map [("hardware", .str "h"),
        ("controller", .map [("commands", .map sampleCmds),
                             ("executables", .null),
                             ("configuration_files", .null)]),
        ("serial", .map [("port", .str "p")])]

/-- A complete node manifest declaring one executable `cmd1 -> run.sh` and a
`start` command using `<!cmd1>` (the claim C6 scenario). -/
def sampleManifestExec : Yaml :=
  .map [("hardware", .str "h"),
        ("controller", .map [("commands", .map sampleCmds),
                             ("executables", .seq [.map [("id", .str "cmd1"),
                                                         ("file", .str "run.sh"),
                                                         ("brief", .str "b")]]),
                             ("configuration_files", .null)]),
        ("serial", sampleSerial)]

/-- A complete node manifest declaring one configuration file `cfg1 ->
ghost.cfg` (which exists on no filesystem) and no executables. -/
def sampleManifestGhostCfg : Yaml :=
  .map [("hardware", .str "h"),
        ("controller", .map [("commands", .map [("load", .str "l"),
                                                ("start", .str "<#cfg1> --go"),
                                                ("stop", .str "s"),
                                                ("reset", .str "r")]),
                             ("executables", .null),
                             ("configuration_files", .seq [.map [("id", .str "cfg1"),
                                                                 ("file", .str "ghost.cfg"),
                                                                 ("brief", .str "b")]])]),
        ("serial", sampleSerial)]

/-- An experiment manifest declaring one firmware `f1 -> fw.bin`. -/
def sampleManifestExp : Yaml :=
  .map [("firmwares", .seq [.map [("id", .str "f1"), ("file", .str "fw.bin")]]),
        ("schedule", .seq [])]

/-- An experiment manifest lacking the mandatory `schedule` key. -/
def sampleManifestExpNoSched : Yaml :=
  .map [("firmwares", .seq [])]

/-! ## Lemmas: list prefix aliases -/

theorem isPreIff {l₁ l₂ : List Char} : l₁.isPrefixOf l₂ = true ↔ l₁ <+: l₂ :=
  List.isPrefixOf_iff_prefix

theorem preTotal {l₁ l₂ l₃ : List Char} (h₁ : l₁ <+: l₃) (h₂ : l₂ <+: l₃) :
    l₁ <+: l₂ ∨ l₂ <+: l₁ :=
  List.prefix_or_prefix_of_prefix h₁ h₂

theorem preLen {l₁ l₂ l₃ : List Char} (h₁ : l₁ <+: l₃) (h₂ : l₂ <+: l₃)
    (h : l₁.length ≤ l₂.length) : l₁ <+: l₂ :=
  List.prefix_of_prefix_length_le h₁ h₂ h

/-! ## Lemmas: `replaceList` computation rules -/

theorem replaceListAux_fuel (pat repl : List Char) :
    ∀ f₁ f₂ s, s.length ≤ f₁ → s.length ≤ f₂ →
      replaceListAux pat repl f₁ s = replaceListAux pat repl f₂ s := by
  intro f₁
  induction f₁ with
  | zero =>
    intro f₂ s h₁ _
    have : s = [] := List.length_eq_zero.mp (Nat.le_zero.mp h₁)
    subst this
    cases f₂ <;> rfl
  | succ f ih =>
    intro f₂ s h₁ h₂
    cases s with
    | nil => cases f₂ <;> rfl
    | cons c s' =>
      cases f₂ with
      | zero => exact absurd h₂ (by simp)
      | succ f₂' =>
        simp only [replaceListAux]
        have hs' : s'.length ≤ f := Nat.le_of_succ_le_succ h₁
        have hs₂ : s'.length ≤ f₂' := Nat.le_of_succ_le_succ h₂
        split
        · have hd : (s'.drop (pat.length - 1)).length ≤ s'.length := by
            simp [List.length_drop]
          rw [ih f₂' _ (Nat.le_trans hd hs') (Nat.le_trans hd hs₂)]
        · rw [ih f₂' s' hs' hs₂]

theorem replaceList_nil (pat repl : List Char) : replaceList pat repl [] = [] := rfl

theorem replaceList_cons (pat repl : List Char) (c : Char) (s : List Char) :
    replaceList pat repl (c :: s) =
      if pat.isPrefixOf (c :: s) ∧ pat ≠ [] then
        repl ++ replaceList pat repl (s.drop (pat.length - 1))
      else
        c :: replaceList pat repl s := by
  show replaceListAux pat repl (s.length + 1) (c :: s) = _
  simp only [replaceListAux]
  split
  · rw [replaceListAux_fuel pat repl s.length (s.drop (pat.length - 1)).length
      (s.drop (pat.length - 1)) (by simp [List.length_drop]) (Nat.le_refl _)]
    rfl
  · rfl

/-! ## Lemmas: occurrence preservation through `replaceList` -/

theorem occursB_iff (pat s : List Char) : occursB pat s = true ↔ Occurs pat s := by
  induction s with
  | nil =>
    simp only [occursB, Occurs]
    rw [isPreIff]
    constructor
    · intro h
      exact ⟨[], [], by simpa using (List.prefix_nil.mp h).symm⟩
    · rintro ⟨a, b, hab⟩
      have : pat = [] := by
        rcases List.append_eq_nil.mp hab.symm with ⟨h₁, _⟩
        exact (List.append_eq_nil.mp h₁).2
      simp [this]
  | cons c s ih =>
    simp only [occursB, Bool.or_eq_true]
    rw [isPreIff]
    constructor
    · rintro (⟨t, ht⟩ | h)
      · exact ⟨[], t, by simpa using ht.symm⟩
      · rcases ih.mp h with ⟨a, b, hab⟩
        exact ⟨c :: a, b, by simp [hab]⟩
    · rintro ⟨a, b, hab⟩
      cases a with
      | nil => exact Or.inl ⟨b, by simpa using hab.symm⟩
      | cons d a' =>
        right
        apply ih.mpr
        obtain ⟨-, h₂⟩ := List.cons_eq_cons.mp hab
        exact ⟨a', b, h₂⟩

theorem occurs_append_left {tok u : List Char} (v : List Char) (h : Occurs tok u) :
    Occurs tok (v ++ u) := by
  rcases h with ⟨a, b, hab⟩
  exact ⟨v ++ a, b, by simp [hab]⟩

theorem occurs_cons {tok s : List Char} (c : Char) (h : Occurs tok s) :
    Occurs tok (c :: s) := by
  simpa using occurs_append_left [c] h

/-- A region that never shows the pattern's head character passes through
`replaceList` untouched. -/
theorem replaceList_skip (pat repl : List Char) (hc : Char) (pp : List Char)
    (hpat : pat = hc :: pp) :
    ∀ u v : List Char, hc ∉ u →
      replaceList pat repl (u ++ v) = u ++ replaceList pat repl v := by
  intro u
  induction u with
  | nil => intro v _; simp
  | cons x u' ih =>
    intro v hu
    have hx : hc ≠ x := fun h => hu (h ▸ List.mem_cons_self x u')
    rw [List.cons_append, replaceList_cons, if_neg]
    · rw [ih v (fun h => hu (List.mem_cons_of_mem x h))]
      rfl
    · rintro ⟨hpre, -⟩
      rw [isPreIff] at hpre
      rcases hpre with ⟨t, ht⟩
      rw [hpat] at ht
      exact hx (List.cons_eq_cons.mp ht).1

/-- Key preservation lemma: replacing occurrences of a pattern never destroys
an occurrence of a different, non-overlapping-shaped token.  Both the pattern
and the token start with `'<'` and contain no further `'<'`, and neither is a
list prefix of the other; these shapes hold for distinct placeholder tokens. -/
theorem occurs_replaceList (pat repl tok pp tt : List Char)
    (hpat : pat = '<' :: pp) (hppNoLt : '<' ∉ pp)
    (htok : tok = '<' :: tt) (httNoLt : '<' ∉ tt)
    (hnp : ¬ pat <+: tok) (hnt : ¬ tok <+: pat) :
    ∀ s, Occurs tok s → Occurs tok (replaceList pat repl s) := by
  have main : ∀ n s, s.length ≤ n → Occurs tok s → Occurs tok (replaceList pat repl s) := by
    intro n
    induction n with
    | zero =>
      intro s hlen hocc
      have : s = [] := List.length_eq_zero.mp (Nat.le_zero.mp hlen)
      subst this
      rcases hocc with ⟨a, b, hab⟩
      rcases List.append_eq_nil.mp hab.symm with ⟨h₁, -⟩
      have : tok = [] := (List.append_eq_nil.mp h₁).2
      rw [htok] at this
      cases this
    | succ n ih =>
      intro s hlen hocc
      cases s with
      | nil =>
        rcases hocc with ⟨a, b, hab⟩
        rcases List.append_eq_nil.mp hab.symm with ⟨h₁, -⟩
        have : tok = [] := (List.append_eq_nil.mp h₁).2
        rw [htok] at this
        cases this
      | cons c s' =>
        have hs'len : s'.length ≤ n := Nat.le_of_succ_le_succ hlen
        rw [replaceList_cons]
        by_cases hpre : pat.isPrefixOf (c :: s') = true
        · rw [if_pos ⟨hpre, by simp [hpat]⟩]
          have hpre' : pat <+: c :: s' := isPreIff.mp hpre
          rcases hocc with ⟨a, b, hab⟩
          -- helper: when the pattern fits inside the part before the token,
          -- the token survives into the recursive call
          have key : pat <+: a → Occurs tok
              (repl ++ replaceList pat repl (s'.drop (pat.length - 1))) := by
            rintro ⟨a₂, ha₂⟩
            have hsplit : c :: s' = pat ++ (a₂ ++ tok ++ b) := by
              rw [hab, ← ha₂]; simp
            have hc : c = '<' := by
              rw [hpat] at hsplit
              exact (List.cons_eq_cons.mp hsplit).1
            have hs' : s' = pp ++ (a₂ ++ tok ++ b) := by
              rw [hpat] at hsplit
              exact (List.cons_eq_cons.mp hsplit).2
            have hdrop : s'.drop (pat.length - 1) = a₂ ++ tok ++ b := by
              rw [hs']
              exact List.drop_left' (by simp [hpat])
            apply occurs_append_left
            rw [hdrop]
            apply ih _ _ ⟨a₂, b, by simp⟩
            calc (a₂ ++ tok ++ b).length = (s'.drop (pat.length - 1)).length := by
                  rw [hdrop]
              _ ≤ s'.length := by simp [List.length_drop]
              _ ≤ n := hs'len
          cases a with
          | nil =>
            have htokpre : tok <+: c :: s' := ⟨b, by simpa using hab.symm⟩
            rcases preTotal htokpre hpre' with h | h
            · exact absurd h hnt
            · exact absurd h hnp
          | cons d a' =>
            have hda : (d :: a') <+: c :: s' := ⟨tok ++ b, by rw [hab]; simp⟩
            rcases preTotal hpre' hda with hpa | hap
            · exact key hpa
            · rcases hap with ⟨p₂, hp₂⟩
              cases p₂ with
              | nil => exact key ⟨[], by simpa using hp₂.symm⟩
              | cons e p₂' =>
                -- the pattern would extend past the pre-token region into the
                -- token, forcing a second '<' inside the pattern: impossible
                exfalso
                have hsp : c :: s' = (d :: a') ++ (tok ++ b) := by rw [hab]; simp
                rcases hpre' with ⟨t, ht⟩
                rw [← hp₂, hsp] at ht
                simp only [List.cons_append, List.append_assoc] at ht
                have hcancel : e :: (p₂' ++ t) = tok ++ b :=
                  List.append_cancel_left (List.cons_eq_cons.mp ht).2
                have he : e = '<' := by
                  rw [htok, List.cons_append] at hcancel
                  exact (List.cons_eq_cons.mp hcancel).1
                have : '<' ∈ pp := by
                  rw [hpat, List.cons_append] at hp₂
                  have h₂ := List.cons_eq_cons.mp hp₂
                  rw [← h₂.2, he]
                  simp
                exact hppNoLt this
        · rw [if_neg (fun hand => hpre hand.1)]
          rcases hocc with ⟨a, b, hab⟩
          cases a with
          | nil =>
            -- the token itself starts here; since its tail has no '<', the
            -- whole token region is skipped verbatim by the replacement
            have hc : c = '<' := by
              rw [htok] at hab
              simpa using (List.cons_eq_cons.mp hab).1
            have hs' : s' = tt ++ b := by
              rw [htok] at hab
              simpa using (List.cons_eq_cons.mp hab).2
            rw [hs', replaceList_skip pat repl '<' pp hpat tt b httNoLt, hc]
            exact ⟨[], replaceList pat repl b, by rw [htok]; simp⟩
          | cons d a' =>
            obtain ⟨-, h₂⟩ := List.cons_eq_cons.mp hab
            exact occurs_cons c (ih s' hs'len ⟨a', b, h₂⟩)
  intro s
  exact main s.length s (Nat.le_refl _)

/-! ## Lemmas: placeholder token shapes -/

theorem token_tail_no_lt (m : Char) (i : List Char) (hm : m ≠ '<') (hi : '<' ∉ i) :
    '<' ∉ m :: (i ++ ['>']) := by
  intro h
  rcases List.mem_cons.mp h with h | h
  · exact hm h.symm
  · rcases List.mem_append.mp h with h | h
    · exact hi h
    · simp at h

theorem id_eq_of_append_gt : ∀ (i₁ i₂ t : List Char), '>' ∉ i₁ → '>' ∉ i₂ →
    i₁ ++ '>' :: t = i₂ ++ ['>'] → i₁ = i₂ := by
  intro i₁
  induction i₁ with
  | nil =>
    intro i₂ t _ h₂ h
    cases i₂ with
    | nil => rfl
    | cons y ys =>
      rw [List.nil_append, List.cons_append] at h
      exact absurd ((List.cons_eq_cons.mp h).1.symm ▸ List.mem_cons_self y ys) h₂
  | cons x xs ih =>
    intro i₂ t h₁ h₂ h
    cases i₂ with
    | nil =>
      rw [List.cons_append, List.nil_append] at h
      obtain ⟨hx, -⟩ := List.cons_eq_cons.mp h
      exact absurd (hx ▸ List.mem_cons_self x xs) h₁
    | cons y ys =>
      rw [List.cons_append, List.cons_append] at h
      obtain ⟨hx, hrest⟩ := List.cons_eq_cons.mp h
      rw [hx, ih ys t (fun hm => h₁ (List.mem_cons_of_mem x hm))
        (fun hm => h₂ (List.mem_cons_of_mem y hm)) hrest]

/-- Two differently-named (or differently-marked) placeholder tokens are never
list prefixes of each other. -/
theorem token_not_pre (m₁ m₂ : Char) (i₁ i₂ : List Char)
    (h₁ : '>' ∉ i₁) (h₂ : '>' ∉ i₂) (hne : m₁ ≠ m₂ ∨ i₁ ≠ i₂) :
    ¬ ('<' :: m₁ :: (i₁ ++ ['>'])) <+: ('<' :: m₂ :: (i₂ ++ ['>'])) := by
  rintro ⟨t, ht⟩
  simp only [List.cons_append, List.append_assoc, List.singleton_append] at ht
  obtain ⟨-, ht⟩ := List.cons_eq_cons.mp ht
  obtain ⟨hm, ht⟩ := List.cons_eq_cons.mp ht
  have hi := id_eq_of_append_gt i₁ i₂ t h₁ h₂ ht
  rcases hne with hne | hne
  · exact hne hm
  · exact hne hi

/-- An unmatched token survives a single placeholder substitution. -/
theorem occurs_strReplace_token (mrk : Char) (id cid c pathv : String)
    (hmrk : mrk ≠ '<')
    (hidLt : '<' ∉ id.data) (hidGt : '>' ∉ id.data)
    (hcidLt : '<' ∉ cid.data) (hcidGt : '>' ∉ cid.data)
    (hne : mrk ≠ '#' ∨ cid ≠ id)
    (hocc : occursB (mkToken mrk id).data c.data = true) :
    occursB (mkToken mrk id).data
      (strReplace c (NodeSetup.cfgToken cid) pathv).data = true := by
  have hdne : mrk ≠ '#' ∨ cid.data ≠ id.data := by
    rcases hne with h | h
    · exact Or.inl h
    · exact Or.inr (fun hd => h (congrArg String.mk hd))
  apply (occursB_iff _ _).mpr
  apply occurs_replaceList (NodeSetup.cfgToken cid).data pathv.data (mkToken mrk id).data
      ('#' :: (cid.data ++ ['>'])) (mrk :: (id.data ++ ['>'])) rfl
      (token_tail_no_lt '#' cid.data (by decide) hcidLt) rfl
      (token_tail_no_lt mrk id.data hmrk hidLt)
  · exact token_not_pre '#' mrk cid.data id.data hcidGt hidGt
      (by rcases hdne with h | h; exact Or.inl (fun hh => h hh.symm); exact Or.inr h)
  · exact token_not_pre mrk '#' id.data cid.data hidGt hcidGt
      (by rcases hdne with h | h; exact Or.inl h; exact Or.inr (fun hh => h hh.symm))
  · exact (occursB_iff _ _).mp hocc

/-! ## Lemmas: the configuration-file substitution pass -/

theorem replaceAll_eq (tok pathv : String) :
    ∀ cmds : List (String × Yaml), (∀ kv ∈ cmds, ∃ s, kv.2 = Yaml.str s) →
      NodeSetup.replaceAllCommands tok pathv cmds =
        .ok (cmds.map (fun kv => (kv.1, yReplace tok pathv kv.2))) := by
  intro cmds
  induction cmds with
  | nil => intro _; rfl
  | cons kv rest ih =>
    intro h
    obtain ⟨k, v⟩ := kv
    obtain ⟨s, hs⟩ := h (k, v) (List.mem_cons_self _ _)
    simp only at hs
    subst hs
    simp only [NodeSetup.replaceAllCommands,
      ih (fun kv hkv => h kv (List.mem_cons_of_mem _ hkv)), List.map_cons, yReplace]

theorem lookupStr_map (f : Yaml → Yaml) :
    ∀ (cmds : List (String × Yaml)) (k : String),
      lookupStr (cmds.map (fun kv => (kv.1, f kv.2))) k = (lookupStr cmds k).map f := by
  intro cmds
  induction cmds with
  | nil => intro k; rfl
  | cons kv rest ih =>
    intro k
    simp only [List.map_cons, lookupStr]
    split <;> simp [ih]

/-! ## Lemmas: dict assignment and firmware registration -/

theorem dictLookup_insert_self (m : List (String × String)) (k v : String) :
    dictLookup (dictInsert m k v) k = some v := by
  induction m with
  | nil => simp [dictInsert, dictLookup]
  | cons kv rest ih =>
    obtain ⟨k', v'⟩ := kv
    by_cases h : k' = k
    · simp [dictInsert, dictLookup, h]
    · simp [dictInsert, dictLookup, h, ih]

theorem dictLookup_insert_other (m : List (String × String)) (k' v k : String)
    (h : k' ≠ k) : dictLookup (dictInsert m k' v) k = dictLookup m k := by
  induction m with
  | nil => simp [dictInsert, dictLookup, h]
  | cons kv rest ih =>
    obtain ⟨a, b⟩ := kv
    by_cases ha : a = k'
    · simp [dictInsert, dictLookup, ha, h]
    · simp only [dictInsert, beq_iff_eq, if_neg ha]
      by_cases hak : a = k
      · simp [dictLookup, hak]
      · simp [dictLookup, hak, ih]

theorem countKey_insert_self (m : List (String × String)) (k v : String) :
    countKey (dictInsert m k v) k =
      if countKey m k = 0 then 1 else countKey m k := by
  induction m with
  | nil => simp [dictInsert, countKey]
  | cons kv rest ih =>
    obtain ⟨a, b⟩ := kv
    by_cases ha : a = k
    · simp [dictInsert, countKey, List.filter_cons, ha]
    · have hskip : ∀ l : List (String × String),
          List.filter (fun kv => kv.1 == k) ((a, b) :: l)
            = List.filter (fun kv => kv.1 == k) l := by
        intro l
        simp [List.filter_cons, ha]
      simp only [dictInsert, beq_iff_eq, if_neg ha, countKey, hskip]
      simpa [countKey] using ih

theorem countKey_insert_other (m : List (String × String)) (k' v k : String)
    (h : k' ≠ k) : countKey (dictInsert m k' v) k = countKey m k := by
  induction m with
  | nil => simp [dictInsert, countKey, h]
  | cons kv rest ih =>
    obtain ⟨a, b⟩ := kv
    by_cases ha : a = k'
    · simp [dictInsert, countKey, List.filter_cons, ha, h]
    · simp only [dictInsert, beq_iff_eq, if_neg ha, countKey, List.filter_cons]
      by_cases hak : a = k
      · simpa [hak, countKey] using ih
      · simpa [hak, countKey] using ih

theorem mem_dictInsert (m : List (String × String)) (k v : String)
    (kv : String × String) (h : kv ∈ dictInsert m k v) :
    kv = (k, v) ∨ kv ∈ m := by
  induction m with
  | nil => simpa [dictInsert] using h
  | cons ab rest ih =>
    obtain ⟨a, b⟩ := ab
    by_cases ha : a = k
    · simp only [dictInsert, beq_iff_eq, if_pos ha] at h
      rcases List.mem_cons.mp h with h | h
      · exact Or.inl h
      · exact Or.inr (List.mem_cons_of_mem _ h)
    · simp only [dictInsert, beq_iff_eq, if_neg ha] at h
      rcases List.mem_cons.mp h with h | h
      · exact Or.inr (h ▸ List.mem_cons_self _ _)
      · rcases ih h with h | h
        · exact Or.inl h
        · exact Or.inr (List.mem_cons_of_mem _ h)

/-! ## Lemmas: firmware registration -/

theorem regFold_cons (dir : String) (e : ExperimentSetup.FirmEntry)
    (rest : List ExperimentSetup.FirmEntry) (acc : List (String × String)) :
    regFold dir (e :: rest) acc
      = regFold dir rest (dictInsert acc e.id (pathJoin dir e.file)) := rfl

theorem regFold_lookup_notin (dir : String) :
    ∀ (entries : List ExperimentSetup.FirmEntry) (acc : List (String × String))
      (k : String), (∀ e ∈ entries, e.id ≠ k) →
      dictLookup (regFold dir entries acc) k = dictLookup acc k := by
  intro entries
  induction entries with
  | nil => intro acc k _; rfl
  | cons e rest ih =>
    intro acc k h
    rw [regFold_cons, ih _ k (fun x hx => h x (List.mem_cons_of_mem _ hx))]
    exact dictLookup_insert_other _ _ _ _ (h e (List.mem_cons_self _ _))

theorem regFold_count_one (dir : String) :
    ∀ (entries : List ExperimentSetup.FirmEntry) (acc : List (String × String))
      (k : String), countKey acc k = 1 →
      countKey (regFold dir entries acc) k = 1 := by
  intro entries
  induction entries with
  | nil => intro acc k h; exact h
  | cons e rest ih =>
    intro acc k h
    rw [regFold_cons]
    apply ih
    by_cases he : e.id = k
    · rw [he, countKey_insert_self, h]
      simp
    · rw [countKey_insert_other _ _ _ _ he, h]

theorem regFold_count_mem (dir : String) :
    ∀ (entries : List ExperimentSetup.FirmEntry) (acc : List (String × String))
      (k : String), countKey acc k = 0 →
      k ∈ entries.map ExperimentSetup.FirmEntry.id →
      countKey (regFold dir entries acc) k = 1 := by
  intro entries
  induction entries with
  | nil => intro acc k _ h; simp at h
  | cons e rest ih =>
    intro acc k hz hmem
    rw [regFold_cons]
    by_cases he : e.id = k
    · apply regFold_count_one
      rw [he, countKey_insert_self, hz]
      simp
    · have hmem' : k ∈ rest.map ExperimentSetup.FirmEntry.id := by
        have h2 : k = e.id ∨ ∃ a ∈ rest, a.id = k := by simpa using hmem
        rcases h2 with h | ⟨a, ha, hak⟩
        · exact absurd h.symm he
        · exact List.mem_map.mpr ⟨a, ha, hak⟩
      exact ih _ k (by rw [countKey_insert_other _ _ _ _ he]; exact hz) hmem'

theorem registerFirmwares_success (fs : List String) (dir : String) :
    ∀ (entries : List ExperimentSetup.FirmEntry) (acc : List (String × String)),
      (∀ e ∈ entries, fs.contains (pathJoin dir e.file) = true) →
      ExperimentSetup.registerFirmwares fs dir entries acc =
        (regFold dir entries acc, none) := by
  intro entries
  induction entries with
  | nil => intro acc _; rfl
  | cons e rest ih =>
    intro acc h
    rw [regFold_cons]
    simp only [ExperimentSetup.registerFirmwares]
    rw [if_pos (h e (List.mem_cons_self _ _))]
    exact ih _ (fun x hx => h x (List.mem_cons_of_mem _ hx))

theorem registerFirmwares_fail (fs : List String) (dir : String) :
    ∀ (pre : List ExperimentSetup.FirmEntry) (e : ExperimentSetup.FirmEntry)
      (rest : List ExperimentSetup.FirmEntry) (acc : List (String × String)),
      (∀ x ∈ pre, fs.contains (pathJoin dir x.file) = true) →
      fs.contains (pathJoin dir e.file) = false →
      ExperimentSetup.registerFirmwares fs dir (pre ++ e :: rest) acc =
        (regFold dir (pre ++ [e]) acc,
         some (.missingFirmwareFile e.file)) := by
  intro pre
  induction pre with
  | nil =>
    intro e rest acc _ he
    have hne : ¬ (fs.contains (pathJoin dir e.file) = true) := by
      rw [he]; simp
    simp only [List.nil_append, ExperimentSetup.registerFirmwares]
    rw [if_neg hne]
    rfl
  | cons x pre' ih =>
    intro e rest acc h he
    simp only [List.cons_append, ExperimentSetup.registerFirmwares]
    rw [if_pos (h x (List.mem_cons_self _ _)), regFold_cons]
    exact ih e rest _ (fun y hy => h y (List.mem_cons_of_mem _ hy)) he

theorem registerFirmwares_ok_files (fs : List String) (dir : String) :
    ∀ (entries : List ExperimentSetup.FirmEntry) (acc m : List (String × String)),
      ExperimentSetup.registerFirmwares fs dir entries acc = (m, none) →
      ∀ kv ∈ m, kv ∈ acc ∨ fs.contains kv.2 = true := by
  intro entries
  induction entries with
  | nil =>
    intro acc m h kv hkv
    simp only [ExperimentSetup.registerFirmwares] at h
    injection h with h1 h2
    exact Or.inl (h1 ▸ hkv)
  | cons e rest ih =>
    intro acc m h kv hkv
    simp only [ExperimentSetup.registerFirmwares] at h
    by_cases hc : fs.contains (pathJoin dir e.file) = true
    · rw [if_pos hc] at h
      rcases ih _ m h kv hkv with hacc | hfs
      · rcases mem_dictInsert _ _ _ _ hacc with hkv' | hkv'
        · exact Or.inr (by rw [hkv']; exact hc)
        · exact Or.inl hkv'
      · exact Or.inr hfs
    · rw [if_neg hc] at h
      exact Option.noConfusion (congrArg Prod.snd h)

theorem registerFirmwares_err_names (fs : List String) (dir : String) :
    ∀ (entries : List ExperimentSetup.FirmEntry) (acc m : List (String × String))
      (err : ExperimentSetup.ExpErr),
      ExperimentSetup.registerFirmwares fs dir entries acc = (m, some err) →
      ∃ e ∈ entries, err = ExperimentSetup.ExpErr.missingFirmwareFile e.file ∧
        fs.contains (pathJoin dir e.file) = false := by
  intro entries
  induction entries with
  | nil =>
    intro acc m err h
    simp only [ExperimentSetup.registerFirmwares] at h
    injection h with h1 h2
    exact Option.noConfusion h2
  | cons e rest ih =>
    intro acc m err h
    simp only [ExperimentSetup.registerFirmwares] at h
    by_cases hc : fs.contains (pathJoin dir e.file) = true
    · rw [if_pos hc] at h
      rcases ih _ m err h with ⟨x, hx, hex, hcx⟩
      exact ⟨x, List.mem_cons_of_mem _ hx, hex, hcx⟩
    · rw [if_neg hc] at h
      injection h with h1 h2
      injection h2 with h3
      exact ⟨e, List.mem_cons_self _ _, h3.symm, by simpa using hc⟩

/-! ## Lemmas: membership bridges -/

theorem containsFalseIff (l : List String) (a : String) :
    (l.contains a = false) ↔ a ∉ l := by
  simp [List.contains]

/-- Fail-fast of the schema walk: as soon as one path fails, `checkPaths`
returns its failing segment and path, whatever the remaining paths are. -/
theorem checkPaths_failfast (y : Yaml) (q : String) (rest : List String)
    (e' : String) (h : walkSegs y (splitSlash q) = some e') :
    checkPaths y (q :: rest) = some (e', q) := by
  simp [checkPaths, h]

/-! ## The claims -/

/-- C1: the claim (with the spec) says a member is rejected whenever its
canonical destination lies outside the canonical workspace root, explicitly
including canonical destinations in a sibling directory whose name shares the
workspace path as a string prefix.  The code's `is_within_directory` is an
`os.path.commonprefix` string test, so with workspace `/tmp/ws` the member
`../ws-evil/passwd` — whose canonical destination `/tmp/ws-evil/passwd` is
outside the workspace — passes the check and `safe_extract` accepts the
archive: the path-traversal defence is violated at this input. -/
theorem c1_commonprefix_check_accepts_sibling_escape :
    is_within_directory "/tmp/ws" (pathJoin "/tmp/ws" "../ws-evil/passwd") = true ∧
    safe_extract [⟨"../ws-evil/passwd"⟩] "/tmp/ws"
      = .ok ["/tmp/ws/../ws-evil/passwd"] ∧
    abspath (pathJoin "/tmp/ws" "../ws-evil/passwd") = "/tmp/ws-evil/passwd" ∧
    isWithinSpec "/tmp/ws" (pathJoin "/tmp/ws" "../ws-evil/passwd") = false := by
  decide

/-- C2: the safety check runs over all archive members before anything is
written: whenever some member's destination fails `is_within_directory`,
`safe_extract` raises the traversal error and the set of written files is
empty. -/
theorem c2_safe_extract_checks_all_before_writing
    (tar : List TarMember) (path : String)
    (h : ∃ m ∈ tar, is_within_directory path (pathJoin path m.name) = false) :
    safe_extract tar path = .error "Attempted Path Traversal in Tar File" ∧
    writtenFiles (safe_extract tar path) = [] := by
  have hall : tar.all (fun m => is_within_directory path (pathJoin path m.name))
      = false := by
    rcases h with ⟨m, hm, hmf⟩
    cases hv : tar.all (fun m => is_within_directory path (pathJoin path m.name)) with
    | false => rfl
    | true => exact absurd (List.all_eq_true.mp hv m hm) (by simp [hmf])
  constructor <;> simp [safe_extract, writtenFiles, hall]

theorem c2_safe_extract_checks_all_before_writing_witness :
    safe_extract [⟨"../evil/x"⟩] "/tmp/ws"
      = .error "Attempted Path Traversal in Tar File" ∧
    writtenFiles (safe_extract [⟨"../evil/x"⟩] "/tmp/ws") = [] :=
  c2_safe_extract_checks_all_before_writing [⟨"../evil/x"⟩] "/tmp/ws"
    ⟨⟨"../evil/x"⟩, by decide, by decide⟩

/-- C3: when any mandatory archive member is absent, both loaders fail before
any extraction (the extracted list is empty) and the raised error carries the
full missing list — exactly the mandatory members absent from the archive's
member-name list, and only those. -/
theorem c3_missing_members_error_before_extraction
    (tempN tempE : String) (fsE : List String)
    (archN archE : List TarMember) (mN mE : Yaml)
    (hN : ∃ e ∈ NodeSetup.PROFILE_MANDATORY_MEMBERS,
            (archN.map TarMember.name).contains e = false)
    (hE : ∃ e ∈ ExperimentSetup.CONFIGURATION_MANDATORY_MEMBERS,
            (archE.map TarMember.name).contains e = false) :
    ((NodeSetup.loadNode tempN archN mN).extracted = [] ∧
      (NodeSetup.loadNode tempN archN mN).error
        = some (.missingMembers (NodeSetup.PROFILE_MANDATORY_MEMBERS.filter
            (fun elt => !(archN.map TarMember.name).contains elt)))) ∧
    ((ExperimentSetup.loadExperiment fsE tempE archE mE).extracted = [] ∧
      (ExperimentSetup.loadExperiment fsE tempE archE mE).error
        = some (.missingMembers
            (ExperimentSetup.CONFIGURATION_MANDATORY_MEMBERS.filter
              (fun elt => !(archE.map TarMember.name).contains elt))
            (archE.map TarMember.name))) ∧
    (∀ (mand : List String) (names : List String) (e : String),
       e ∈ mand.filter (fun elt => !names.contains elt) ↔
         (e ∈ mand ∧ e ∉ names)) := by
  have hanyN : (NodeSetup.PROFILE_MANDATORY_MEMBERS.any
      (fun elt => !(archN.map TarMember.name).contains elt)) = true := by
    rcases hN with ⟨e, he, hce⟩
    exact List.any_eq_true.mpr ⟨e, he, by simpa using hce⟩
  have hanyE : (ExperimentSetup.CONFIGURATION_MANDATORY_MEMBERS.any
      (fun elt => !(archE.map TarMember.name).contains elt)) = true := by
    rcases hE with ⟨e, he, hce⟩
    exact List.any_eq_true.mpr ⟨e, he, by simpa using hce⟩
  refine ⟨?_, ?_, ?_⟩
  · simp only [NodeSetup.loadNode]
    rw [if_pos hanyN]
    exact ⟨rfl, rfl⟩
  · simp only [ExperimentSetup.loadExperiment]
    rw [if_pos hanyE]
    exact ⟨rfl, rfl⟩
  · intro mand names e
    simp [List.mem_filter, List.contains]

theorem c3_missing_members_error_before_extraction_witness :
    (NodeSetup.loadNode "/tmp/ws"
        [⟨"controller"⟩, ⟨"controller/configuration_files"⟩, ⟨"serial"⟩, ⟨"manifest.yml"⟩]
        sampleManifestExec).error
      = some (.missingMembers ["controller/executables"]) := by
  have h := c3_missing_members_error_before_extraction "/tmp/ws" "/tmp/e" []
    [⟨"controller"⟩, ⟨"controller/configuration_files"⟩, ⟨"serial"⟩, ⟨"manifest.yml"⟩]
    [⟨"manifest.yml"⟩] sampleManifestExec sampleManifestExp
    ⟨"controller/executables", by decide, by decide⟩
    ⟨"firmwares", by decide, by decide⟩
  exact h.1.2

/-- C4 counterexample: the claim says the missing-field error names both the
offending segment and the full path, exemplified by `serial/baudrate`.  On
the node-profile loader the raise site passes only the failing segment into
the message format (`ERROR_MISSING_ARGUMENT_IN_MANIFEST.format(element)`):
for a manifest missing `serial/baudrate` the error's datum is exactly
`"baudrate"`, and the full path `"serial/baudrate"` does not occur in it. -/
theorem c4_counterexample_node_error_lacks_path :
    (NodeSetup.loadNode "/tmp/ws" sampleNodeArchive sampleManifestNoBaud).error
      = some (.manifestMissing "baudrate") ∧
    occursB "serial/baudrate".data "baudrate".data = false := by
  decide

/-- C4 (amended): the schema walk checks each mandatory path's slash-split
segments in order and fails fast at the first failing path with no later path
checked; the experiment loader's error carries both the failing segment and
the full path, while the node-profile loader's error carries only the failing
segment. -/
theorem c4_amended_schema_walk_failfast
    (tempN : String) (archN : List TarMember) (mN : Yaml) (eN pN : String)
    (tempE : String) (fsE : List String) (archE : List TarMember) (mE : Yaml)
    (eE pE : String)
    (hN1 : NodeSetup.PROFILE_MANDATORY_MEMBERS.all
      (fun elt => (archN.map TarMember.name).contains elt) = true)
    (hN2 : archN.all (fun m => is_within_directory tempN (pathJoin tempN m.name)) = true)
    (hN3 : checkPaths mN NodeSetup.MANIFEST_MANDATORY_MEMBERS = some (eN, pN))
    (hE1 : ExperimentSetup.CONFIGURATION_MANDATORY_MEMBERS.all
      (fun elt => (archE.map TarMember.name).contains elt) = true)
    (hE2 : archE.all (fun m => is_within_directory tempE (pathJoin tempE m.name)) = true)
    (hE3 : checkPaths mE ExperimentSetup.MANIFEST_MANDATORY_MEMBERS = some (eE, pE)) :
    (NodeSetup.loadNode tempN archN mN).error = some (.manifestMissing eN) ∧
    (ExperimentSetup.loadExperiment fsE tempE archE mE).error
      = some (.manifestMissing eE pE) ∧
    (∀ (y : Yaml) (q : String) (rest : List String) (e' : String),
       walkSegs y (splitSlash q) = some e' → checkPaths y (q :: rest) = some (e', q)) := by
  have hanyN : (NodeSetup.PROFILE_MANDATORY_MEMBERS.any
      (fun elt => !(archN.map TarMember.name).contains elt)) = false := by
    rw [List.any_eq_false]
    intro e he
    have hc := List.all_eq_true.mp hN1 e he
    simpa using hc
  have hanyE : (ExperimentSetup.CONFIGURATION_MANDATORY_MEMBERS.any
      (fun elt => !(archE.map TarMember.name).contains elt)) = false := by
    rw [List.any_eq_false]
    intro e he
    have hc := List.all_eq_true.mp hE1 e he
    simpa using hc
  refine ⟨?_, ?_, fun y q rest e' h => checkPaths_failfast y q rest e' h⟩
  · simp only [NodeSetup.loadNode]
    rw [if_neg (by rw [hanyN]; simp), safe_extract, if_pos hN2, hN3]
  · simp only [ExperimentSetup.loadExperiment]
    rw [if_neg (by rw [hanyE]; simp), safe_extract, if_pos hE2, hE3]

theorem c4_amended_schema_walk_failfast_witness :
    (NodeSetup.loadNode "/tmp/ws" sampleNodeArchive sampleManifestNoBaud).error
      = some (.manifestMissing "baudrate") ∧
    (ExperimentSetup.loadExperiment [] "/tmp/e" sampleExpArchive
        sampleManifestExpNoSched).error
      = some (.manifestMissing "schedule" "schedule") ∧
    checkPaths sampleManifestNoBaud ["serial/baudrate"]
      = some ("baudrate", "serial/baudrate") := by
  have h := c4_amended_schema_walk_failfast "/tmp/ws" sampleNodeArchive
    sampleManifestNoBaud "baudrate" "serial/baudrate" "/tmp/e" []
    sampleExpArchive sampleManifestExpNoSched "schedule" "schedule"
    (by decide) (by decide) (by decide) (by decide) (by decide) (by decide)
  exact ⟨h.1, h.2.1, h.2.2 sampleManifestNoBaud "serial/baudrate" [] "baudrate" (by decide)⟩

/-- C5 counterexample: the claim says every configuration-file entry's
resolved path must exist as a regular file or loading fails with a
file-reference error.  The node-profile loader performs no existence check at
all on executable or configuration-file entries — `loadNode` does not even
consult a filesystem — so a profile declaring `cfg1 -> ghost.cfg` (a file
that exists nowhere) loads successfully and resolves the `<#cfg1>`
placeholder to the nonexistent path. -/
theorem c5_counterexample_config_file_not_checked :
    (NodeSetup.loadNode "/tmp/ws" sampleNodeArchive sampleManifestGhostCfg).error
      = none ∧
    (NodeSetup.loadNode "/tmp/ws" sampleNodeArchive sampleManifestGhostCfg).command
        "start"
      = some "/tmp/ws/controller/configuration_files/ghost.cfg --go" := by
  decide

/-- C5 (amended): only the experiment loader's firmware entries are
existence-checked.  When experiment loading succeeds, every value of the
firmware map is a file present on disk; when it fails with the firmware
file-reference error, the error names the declared file name of a firmware
entry whose resolved path is missing.  Executable and configuration-file
entries of the node-profile loader are never checked (see the
counterexample). -/
theorem c5_amended_only_firmwares_checked
    (fs : List String) (temp : String) (archive : List TarMember)
    (manifest : Yaml) :
    ((ExperimentSetup.loadExperiment fs temp archive manifest).error = none →
      ∀ kv ∈ (ExperimentSetup.loadExperiment fs temp archive manifest).firmwares,
        fs.contains kv.2 = true) ∧
    (∀ f, (ExperimentSetup.loadExperiment fs temp archive manifest).error
        = some (.missingFirmwareFile f) →
      ∃ e ∈ ExperimentSetup.expFirmEntries manifest, f = e.file ∧
        fs.contains (pathJoin (pathJoin temp ExperimentSetup.FIRMWARES_SUBDIR) e.file)
          = false) := by
  simp only [ExperimentSetup.loadExperiment]
  split
  · constructor
    · intro he
      simp [ExperimentSetup.expInit] at he
    · intro f hf
      simp [ExperimentSetup.expInit] at hf
  · split
    · constructor
      · intro he
        simp [ExperimentSetup.expInit] at he
      · intro f hf
        simp [ExperimentSetup.expInit] at hf
    · split
      · constructor
        · intro he
          simp [ExperimentSetup.expInit] at he
        · intro f hf
          simp [ExperimentSetup.expInit] at hf
      · split
        · constructor
          · intro he
            simp [ExperimentSetup.expInit] at he
          · intro f hf
            simp [ExperimentSetup.expInit] at hf
        · next fwY heqf =>
          split
          · constructor
            · intro he
              simp [ExperimentSetup.expInit] at he
            · intro f hf
              simp [ExperimentSetup.expInit] at hf
          · next entries heqe =>
            have hEclaim : ExperimentSetup.expFirmEntries manifest = entries := by
              simp [ExperimentSetup.expFirmEntries, heqf, heqe]
            constructor
            · intro he kv hkv
              have he' : (ExperimentSetup.registerFirmwares fs
                  (pathJoin temp ExperimentSetup.FIRMWARES_SUBDIR) entries []).2
                    = none := he
              have hkv' : kv ∈ (ExperimentSetup.registerFirmwares fs
                  (pathJoin temp ExperimentSetup.FIRMWARES_SUBDIR) entries []).1 := hkv
              have hreg : ExperimentSetup.registerFirmwares fs
                  (pathJoin temp ExperimentSetup.FIRMWARES_SUBDIR) entries []
                    = ((ExperimentSetup.registerFirmwares fs
                        (pathJoin temp ExperimentSetup.FIRMWARES_SUBDIR) entries []).1,
                       none) := by
                rw [← he']
              rcases registerFirmwares_ok_files fs _ entries [] _ hreg kv hkv' with h | h
              · simp at h
              · exact h
            · intro f hf
              have hf' : (ExperimentSetup.registerFirmwares fs
                  (pathJoin temp ExperimentSetup.FIRMWARES_SUBDIR) entries []).2
                    = some (.missingFirmwareFile f) := hf
              have hreg : ExperimentSetup.registerFirmwares fs
                  (pathJoin temp ExperimentSetup.FIRMWARES_SUBDIR) entries []
                    = ((ExperimentSetup.registerFirmwares fs
                        (pathJoin temp ExperimentSetup.FIRMWARES_SUBDIR) entries []).1,
                       some (.missingFirmwareFile f)) := by
                rw [← hf']
              rcases registerFirmwares_err_names fs _ entries [] _ _ hreg
                with ⟨e, hmem, heq', hc⟩
              injection heq' with hfe
              exact ⟨e, hEclaim ▸ hmem, hfe, hc⟩

theorem c5_amended_only_firmwares_checked_witness :
    (["/tmp/ws/firmwares/fw.bin"] : List String).contains "/tmp/ws/firmwares/fw.bin"
      = true :=
  (c5_amended_only_firmwares_checked ["/tmp/ws/firmwares/fw.bin"] "/tmp/ws"
    sampleExpArchive sampleManifestExp).1 (by decide)
    ("f1", "/tmp/ws/firmwares/fw.bin") (by decide)

/-- C6: the claim says that with executable entry `cmd1 -> run.sh` the
`start` command `<!cmd1> --mode=fast` resolves to
`<workspace>/controller/executables/run.sh --mode=fast`.  The code instead
raises `ValueError` for every non-empty executable table: the placeholder
loop iterates the commands dict without `.items()`, so each KEY string is
tuple-unpacked into `(cmd_name, cmd)`, which fails on the first key `"load"`
(length 4).  Loading fails and the `start` command is never rewritten. -/
theorem c6_exec_placeholder_pass_raises_valueerror :
    (NodeSetup.loadNode "/tmp/ws" sampleNodeArchive sampleManifestExec).error
      = some .valueError ∧
    (NodeSetup.loadNode "/tmp/ws" sampleNodeArchive sampleManifestExec).command
        "start"
      ≠ some "/tmp/ws/controller/executables/run.sh --mode=fast" := by
  decide

/-- Recursion core for claim C7: walking the configuration-file entry list,
an unmatched well-formed token survives every substitution step. -/
theorem c7aux (temp : String) (k id : String) (mrk : Char)
    (hmrk : mrk ≠ '<') (hidLt : '<' ∉ id.data) (hidGt : '>' ∉ id.data) :
    ∀ (entries : List Yaml) (cmds : List (String × Yaml)) (c : String),
      (∀ cy ∈ entries, ∃ cid cfile, cy.get "id" = some (.str cid) ∧
         cy.get "file" = some (.str cfile) ∧ '<' ∉ cid.data ∧ '>' ∉ cid.data ∧
         (mrk = '#' → cid ≠ id)) →
      (∀ kv ∈ cmds, ∃ s, kv.2 = Yaml.str s) →
      lookupStr cmds k = some (.str c) →
      occursB (mkToken mrk id).data c.data = true →
      NodeSetup.containsToken (mkToken mrk id)
        (NodeSetup.configPassCmd temp entries cmds k) = true := by
  intro entries
  induction entries with
  | nil =>
    intro cmds c _ _ hk hocc
    simp [NodeSetup.configPassCmd, NodeSetup.configPass, hk,
      NodeSetup.containsToken, hocc]
  | cons cy rest ih =>
    intro cmds c hE hA hk hocc
    obtain ⟨cid, cfile, hgid, hgfile, hcLt, hcGt, hone⟩ :=
      hE cy (List.mem_cons_self _ _)
    have hrepl := replaceAll_eq (NodeSetup.cfgToken cid)
      (pathJoin (pathJoin temp NodeSetup.CONTROLLER_CONFIGURATION_FILES_SUBDIR) cfile)
      cmds hA
    have hstep : NodeSetup.configPass temp (cy :: rest) cmds
        = NodeSetup.configPass temp rest
            (cmds.map (fun kv => (kv.1, yReplace (NodeSetup.cfgToken cid)
              (pathJoin (pathJoin temp NodeSetup.CONTROLLER_CONFIGURATION_FILES_SUBDIR)
                cfile) kv.2))) := by
      simp [NodeSetup.configPass, hgid, hgfile, hrepl]
    have hcast : NodeSetup.configPassCmd temp (cy :: rest) cmds k
        = NodeSetup.configPassCmd temp rest
            (cmds.map (fun kv => (kv.1, yReplace (NodeSetup.cfgToken cid)
              (pathJoin (pathJoin temp NodeSetup.CONTROLLER_CONFIGURATION_FILES_SUBDIR)
                cfile) kv.2))) k := by
      simp only [NodeSetup.configPassCmd, hstep]
    rw [hcast]
    have hne : mrk ≠ '#' ∨ cid ≠ id := by
      by_cases h : mrk = '#'
      · exact Or.inr (hone h)
      · exact Or.inl h
    have hk' : lookupStr (cmds.map (fun kv => (kv.1, yReplace (NodeSetup.cfgToken cid)
        (pathJoin (pathJoin temp NodeSetup.CONTROLLER_CONFIGURATION_FILES_SUBDIR) cfile)
        kv.2))) k
        = some (.str (strReplace c (NodeSetup.cfgToken cid)
            (pathJoin (pathJoin temp NodeSetup.CONTROLLER_CONFIGURATION_FILES_SUBDIR)
              cfile))) := by
      rw [lookupStr_map, hk]
      rfl
    exact ih _ _ (fun cy' hcy' => hE cy' (List.mem_cons_of_mem _ hcy'))
      (fun kv hkv => by
        rcases List.mem_map.mp hkv with ⟨kv0, hkv0, hmap⟩
        rcases hA kv0 hkv0 with ⟨s, hs⟩
        exact ⟨strReplace s (NodeSetup.cfgToken cid)
          (pathJoin (pathJoin temp NodeSetup.CONTROLLER_CONFIGURATION_FILES_SUBDIR) cfile),
          by rw [← hmap]; simp [hs, yReplace]⟩)
      hk'
      (occurs_strReplace_token mrk id cid c _ hmrk hidLt hidGt hcLt hcGt hne hocc)

/-- C7: a placeholder token `<!id>` or `<#id>` whose id has no matching entry
in the configuration-file table is left verbatim by the substitution pass at
lines 195-202 — the pass is total over the table (no error on account of the
token) and the token still occurs literally in the resolved command string.
Hypotheses restrict ids to well-formed placeholder names (no `<`/`>` inside)
and require the unmatched id to differ from every table id. -/
theorem c7_unmatched_placeholder_left_verbatim
    (temp : String) (entries : List Yaml) (cmds : List (String × Yaml))
    (k id : String) (mrk : Char) (c : String)
    (hmrk : mrk ≠ '<') (hidLt : '<' ∉ id.data) (hidGt : '>' ∉ id.data)
    (hE : ∀ cy ∈ entries, ∃ cid cfile, cy.get "id" = some (.str cid) ∧
       cy.get "file" = some (.str cfile) ∧ '<' ∉ cid.data ∧ '>' ∉ cid.data ∧
       (mrk = '#' → cid ≠ id))
    (hA : ∀ kv ∈ cmds, ∃ s, kv.2 = Yaml.str s)
    (hk : lookupStr cmds k = some (.str c))
    (hocc : occursB (mkToken mrk id).data c.data = true) :
    NodeSetup.containsToken (mkToken mrk id)
      (NodeSetup.configPassCmd temp entries cmds k) = true :=
  c7aux temp k id mrk hmrk hidLt hidGt entries cmds c hE hA hk hocc

theorem c7_unmatched_placeholder_left_verbatim_witness :
    NodeSetup.containsToken (mkToken '#' "ghost")
      (NodeSetup.configPassCmd "/tmp/ws"
        [Yaml.map [("id", Yaml.str "cfg1"), ("file", Yaml.str "a.cfg")]]
        [("start", Yaml.str "<#ghost> run")] "start") = true :=
  c7_unmatched_placeholder_left_verbatim "/tmp/ws"
    [Yaml.map [("id", Yaml.str "cfg1"), ("file", Yaml.str "a.cfg")]]
    [("start", Yaml.str "<#ghost> run")] "start" "ghost" '#' "<#ghost> run"
    (by decide) (by decide) (by decide)
    (by
      intro cy hcy
      have h := List.mem_singleton.mp hcy
      subst h
      exact ⟨"cfg1", "a.cfg", rfl, rfl, by decide, by decide, fun _ => by decide⟩)
    (by
      intro kv hkv
      have h := List.mem_singleton.mp hkv
      subst h
      exact ⟨"<#ghost> run", rfl⟩)
    rfl (by decide)

/-- C8 counterexample: the claim says release does not raise on an
already-removed workspace.  `Loader.clean` is a bare `shutil.rmtree` with no
error handling, so on a filesystem from which the workspace directory is
already gone, release raises the not-found error. -/
theorem c8_counterexample_release_raises_on_missing :
    clean ⟨[], []⟩ "/tmp/ws" = .error .notFound := by
  decide

/-- C8 (amended): release recursively deletes the workspace tree (afterwards
no surviving file lies under the workspace), but on an already-removed
workspace it raises the not-found error — the code does not suppress it. -/
theorem c8_amended_release_behavior (fs : FS) (temp : String) :
    (fs.dirs.contains temp = true →
      clean fs temp = .ok ⟨fs.dirs.filter (fun d => !pathUnder temp d),
                           fs.files.filter (fun f => !pathUnder temp f)⟩ ∧
      ∀ p ∈ fs.files.filter (fun f => !pathUnder temp f),
        pathUnder temp p = false) ∧
    (fs.dirs.contains temp = false → clean fs temp = .error .notFound) := by
  constructor
  · intro h
    constructor
    · simp only [clean, rmtree]
      rw [if_pos h]
    · intro p hp
      rcases List.mem_filter.mp hp with ⟨-, hp2⟩
      simpa using hp2
  · intro h
    simp only [clean, rmtree]
    rw [if_neg (by rw [h]; simp)]

theorem c8_amended_release_behavior_witness :
    clean ⟨["/tmp/ws"], ["/tmp/ws/a"]⟩ "/tmp/ws" = .ok ⟨[], []⟩ :=
  ((c8_amended_release_behavior ⟨["/tmp/ws"], ["/tmp/ws/a"]⟩ "/tmp/ws").1
    (by decide)).1

/-- C9: duplicate ids in the firmware table are not rejected: when every
entry's file exists, registration succeeds, and a table holding two entries
with the same id ends with exactly one binding for that id — the resolved
path of the later entry (the later `self.firmwares[fid] = ...` assignment
overwrites the earlier one). -/
theorem c9_duplicate_ids_overwrite
    (fs : List String) (dir : String)
    (pre mid post : List ExperimentSetup.FirmEntry) (i f1 f2 : String)
    (hfiles : ∀ e ∈ pre ++ ⟨i, f1⟩ :: mid ++ ⟨i, f2⟩ :: post,
       fs.contains (pathJoin dir e.file) = true)
    (hpost : i ∉ post.map ExperimentSetup.FirmEntry.id) :
    ExperimentSetup.registerFirmwares fs dir
        (pre ++ ⟨i, f1⟩ :: mid ++ ⟨i, f2⟩ :: post) []
      = (regFold dir (pre ++ ⟨i, f1⟩ :: mid ++ ⟨i, f2⟩ :: post) [], none) ∧
    dictLookup (regFold dir (pre ++ ⟨i, f1⟩ :: mid ++ ⟨i, f2⟩ :: post) []) i
      = some (pathJoin dir f2) ∧
    countKey (regFold dir (pre ++ ⟨i, f1⟩ :: mid ++ ⟨i, f2⟩ :: post) []) i = 1 := by
  refine ⟨registerFirmwares_success fs dir _ [] hfiles, ?_, ?_⟩
  · have hdec : regFold dir (pre ++ ⟨i, f1⟩ :: mid ++ ⟨i, f2⟩ :: post) []
        = regFold dir post (dictInsert
            (regFold dir mid (dictInsert (regFold dir pre []) i (pathJoin dir f1)))
            i (pathJoin dir f2)) := by
      simp [regFold, List.foldl_append]
    rw [hdec, regFold_lookup_notin dir post _ i
      (fun e he hei => hpost (List.mem_map.mpr ⟨e, he, hei⟩)),
      dictLookup_insert_self]
  · exact regFold_count_mem dir _ [] i (by simp [countKey]) (by simp)

theorem c9_duplicate_ids_overwrite_witness :
    dictLookup (regFold "/d" [⟨"a", "f1"⟩, ⟨"x", "fx"⟩, ⟨"a", "f2"⟩] []) "a"
      = some "/d/f2" ∧
    countKey (regFold "/d" [⟨"a", "f1"⟩, ⟨"x", "fx"⟩, ⟨"a", "f2"⟩] []) "a" = 1 := by
  have h := c9_duplicate_ids_overwrite ["/d/f1", "/d/fx", "/d/f2"] "/d"
    [] [⟨"x", "fx"⟩] [] "a" "f1" "f2" (by decide) (by decide)
  exact ⟨h.2.1, h.2.2⟩

/-- C10: the firmware registration loop stores each entry's resolved path
into `self.firmwares` BEFORE checking that the file exists, so when the check
fails, the map already binds the ids of all earlier entries and of the
failing entry itself (for a table whose earlier ids are distinct, each to its
own resolved path); the error state is not the empty map. -/
theorem c10_firmware_map_mutated_before_failure
    (fs : List String) (dir : String)
    (pre rest : List ExperimentSetup.FirmEntry) (e : ExperimentSetup.FirmEntry)
    (hpre : ∀ x ∈ pre, fs.contains (pathJoin dir x.file) = true)
    (he : fs.contains (pathJoin dir e.file) = false)
    (hids : (pre.map ExperimentSetup.FirmEntry.id).Nodup)
    (hne : e.id ∉ pre.map ExperimentSetup.FirmEntry.id) :
    ExperimentSetup.registerFirmwares fs dir (pre ++ e :: rest) []
      = (regFold dir (pre ++ [e]) [],
         some (.missingFirmwareFile e.file)) ∧
    dictLookup (regFold dir (pre ++ [e]) []) e.id = some (pathJoin dir e.file) ∧
    ∀ x ∈ pre, dictLookup (regFold dir (pre ++ [e]) []) x.id
      = some (pathJoin dir x.file) := by
  refine ⟨registerFirmwares_fail fs dir pre e rest [] hpre he, ?_, ?_⟩
  · have hdec : regFold dir (pre ++ [e]) []
        = dictInsert (regFold dir pre []) e.id (pathJoin dir e.file) := by
      simp [regFold, List.foldl_append]
    rw [hdec, dictLookup_insert_self]
  · intro x hx
    have hxid : x.id ≠ e.id := by
      intro h
      exact hne (h ▸ List.mem_map.mpr ⟨x, hx, rfl⟩)
    rcases List.append_of_mem hx with ⟨p1, p2, rfl⟩
    have hxnotp2 : x.id ∉ p2.map ExperimentSetup.FirmEntry.id := by
      have h1 : ((p1 ++ x :: p2).map ExperimentSetup.FirmEntry.id).Nodup := hids
      rw [List.map_append, List.map_cons] at h1
      have h2 := h1.of_append_right
      exact (List.nodup_cons.mp h2).1
    have hdec : regFold dir ((p1 ++ x :: p2) ++ [e]) []
        = regFold dir (p2 ++ [e])
            (dictInsert (regFold dir p1 []) x.id (pathJoin dir x.file)) := by
      simp [regFold, List.foldl_append]
    rw [hdec, regFold_lookup_notin dir (p2 ++ [e]) _ x.id ?notk,
      dictLookup_insert_self]
    case notk =>
      intro y hy
      rcases List.mem_append.mp hy with hy | hy
      · intro hyx
        exact hxnotp2 (hyx ▸ List.mem_map.mpr ⟨y, hy, rfl⟩)
      · have : y = e := List.mem_singleton.mp hy
        rw [this]
        intro hh
        exact hxid hh.symm

theorem c10_firmware_map_mutated_before_failure_witness :
    ExperimentSetup.registerFirmwares ["/d/fa"] "/d"
        [⟨"a", "fa"⟩, ⟨"b", "ghost"⟩, ⟨"c", "fc"⟩] []
      = (regFold "/d" [⟨"a", "fa"⟩, ⟨"b", "ghost"⟩] [],
         some (.missingFirmwareFile "ghost")) ∧
    dictLookup (regFold "/d" [⟨"a", "fa"⟩, ⟨"b", "ghost"⟩] []) "b"
      = some "/d/ghost" := by
  have h := c10_firmware_map_mutated_before_failure ["/d/fa"] "/d"
    [⟨"a", "fa"⟩] [⟨"c", "fc"⟩] ⟨"b", "ghost"⟩
    (by decide) (by decide) (by decide) (by decide)
  exact ⟨h.1, h.2.1⟩

end Sensorlab
